import Mathlib

/-!
Shallow embedding of the clarity-sentiment-analyzer core:
text normalization and deduplication (`processTextInput` in
`src/components/DataInput.tsx`), lexicon sentiment classification and keyword
extraction (`analyzeSentiment`, `extractKeywords` in
`src/components/SentimentAnalysis.tsx`), the aggregation step of `runAnalysis`
(same file), and the word-cloud font scaling (`weightFactor` in
`src/pages/Index.tsx`).

JavaScript numbers are modelled as exact rationals (`ℚ`) except for the
word-cloud font scaling, which uses `Math.log` and is therefore modelled over
`ℝ`.  `Math.round x` is modelled as `⌊x + 1/2⌋` (round half towards +∞).
Strings are Lean `String`s (lists of characters); the character classes of the
JavaScript regexes `\s` and `\w` are modelled on ASCII, which covers every
character the program's lexicons and separators use.
-/

/-- Characters matched by the JavaScript regex class `\s` (ASCII part). -/
def isWsChar (c : Char) : Bool :=
  c = ' ' || c = '\t' || c = '\n' || c = '\r' || c = '\x0b' || c = '\x0c'

/-- Characters matched by the JavaScript regex class `\w`:
letters, digits and underscore. -/
def isWordChar (c : Char) : Bool :=
  ('a' ≤ c && c ≤ 'z') || ('A' ≤ c && c ≤ 'Z') || ('0' ≤ c && c ≤ '9') || c = '_'

/-- `String.prototype.trim`: drop whitespace from both ends. -/
def jsTrim (s : String) : String :=
  String.mk (((s.data.dropWhile isWsChar).reverse.dropWhile isWsChar).reverse)

/-- `text.split('\n')`: split on each newline character, keeping empty
segments (`"".split('\n') = [""]`). -/
def splitLines (text : String) : List String :=
  (text.data.splitOn '\n').map String.mk

mutual

/-- Accumulating worker for `jsSplitWs`: `cur` holds the (reversed) characters
of the token being read. -/
def jsSplitWsGo (cur : List Char) : List Char → List (List Char)
  | [] => [cur.reverse]
  | c :: cs => if isWsChar c then cur.reverse :: jsSplitWsSkip cs else jsSplitWsGo (c :: cur) cs

/-- Worker consuming the remainder of a whitespace run; a run at the very end
of the string contributes a final empty segment, as the JS regex split does. -/
def jsSplitWsSkip : List Char → List (List Char)
  | [] => [[]]
  | c :: cs => if isWsChar c then jsSplitWsSkip cs else jsSplitWsGo [c] cs

end

/-- `s.split(/\s+/)` on a list of characters: split on maximal whitespace
runs; a leading (resp. trailing) run produces an initial (resp. final) empty
segment, and `""` maps to `[""]`, exactly as in JavaScript. -/
def jsSplitWs (s : List Char) : List (List Char) :=
  jsSplitWsGo [] s

/-- `[...new Set(l)]`: first-occurrence-preserving deduplication.  JS `Set`
iterates in insertion order, so the result lists the distinct elements in
order of first occurrence. -/
def jsSetDedup : List String → List String
  | [] => []
  | x :: xs => x :: (jsSetDedup xs).erase x

/-- `ParsedData` as returned by `processTextInput` in `DataInput.tsx`. -/
structure ParsedData where
  comments : List String
  rawCount : ℕ
  uniqueCount : ℕ
  duplicateCount : ℤ
  singleTokenWarning : Bool
  singleTokenPercentage : ℚ
  deriving Repr, DecidableEq

/-- The trimmed non-empty lines of the input — the `lines` local of
`processTextInput`. -/
def normLines (text : String) : List String :=
  ((splitLines text).map jsTrim).filter (fun line => 0 < line.length)

/-- A line that `processTextInput` counts as "single-token":
`line.length <= 3 || line.split(/\s+/).length === 1`. -/
def isSingleTokenLine (line : String) : Bool :=
  line.length ≤ 3 || (jsSplitWs line.data).length = 1

/-- `processTextInput` (`DataInput.tsx`, lines 74–100).  The source throws
`Error("No valid comments found in input")` when no trimmed non-empty line
remains; this is modelled by `none`. -/
def processTextInput (text : String) : Option ParsedData :=
  let lines := normLines text
  if lines.length = 0 then none
  else
    let singleTokenLines := lines.filter isSingleTokenLine
    let singleTokenPercentage : ℚ := ((singleTokenLines.length : ℚ) / (lines.length : ℚ)) * 100
    let singleTokenWarning : Bool := singleTokenPercentage > 40
    let uniqueComments := jsSetDedup lines
    some { comments := lines
           rawCount := lines.length
           uniqueCount := uniqueComments.length
           duplicateCount := (lines.length : ℤ) - (uniqueComments.length : ℤ)
           singleTokenWarning := singleTokenWarning
           singleTokenPercentage := singleTokenPercentage }

example : (processTextInput "a\na").map (fun b => b.uniqueCount) = some 1 := by decide
example : (processTextInput "a\na").map (fun b => b.comments.length) = some 2 := by decide
example : processTextInput "  \n \n" = none := by decide

/-- Sentiment labels (`'positive' | 'negative' | 'neutral'`). -/
inductive Sentiment where
  | positive
  | negative
  | neutral
  deriving Repr, DecidableEq

/-- The positive lexicon of `analyzeSentiment` (`SentimentAnalysis.tsx`). -/
def positiveWords : List String :=
  ["good", "great", "excellent", "amazing", "wonderful", "fantastic", "perfect", "love", "best", "awesome",
   "helpful", "professional", "caring", "efficient", "clean", "friendly", "satisfied", "pleased", "happy",
   "outstanding", "impressive", "quality", "reliable", "comfortable", "convenient", "smooth", "easy"]

/-- The negative lexicon of `analyzeSentiment` (`SentimentAnalysis.tsx`). -/
def negativeWords : List String :=
  ["bad", "terrible", "awful", "horrible", "worst", "hate", "disappointing", "poor", "inadequate",
   "frustrating", "annoying", "slow", "expensive", "difficult", "complicated", "confusing", "unclear",
   "unprofessional", "rude", "unhelpful", "broken", "failed", "problem", "issue", "complaint", "concern"]

/-- `word.replace(/[^\w]/g, '')`: keep only word characters. -/
def cleanWord (w : List Char) : List Char :=
  w.filter isWordChar

/-- `text.toLowerCase().split(/\s+/)` — the token stream `analyzeSentiment`
scores. -/
def sentTokens (text : String) : List (List Char) :=
  jsSplitWs (text.data.map Char.toLower)

/-- The `positiveScore` counter of `analyzeSentiment`: number of tokens whose
cleaned form is in the positive lexicon. -/
def positiveScore (text : String) : ℕ :=
  ((sentTokens text).filter (fun w => positiveWords.contains (String.mk (cleanWord w)))).length

/-- The `negativeScore` counter of `analyzeSentiment`. -/
def negativeScore (text : String) : ℕ :=
  ((sentTokens text).filter (fun w => negativeWords.contains (String.mk (cleanWord w)))).length

/-- `analyzeSentiment` (`SentimentAnalysis.tsx`, lines 42–78).  The `jitter`
argument stands for the value of `Math.random() * 0.2` drawn in the neutral
branches, so it ranges over `[0, 0.2)`. -/
def analyzeSentiment (text : String) (jitter : ℚ) : Sentiment × ℚ :=
  let total := positiveScore text + negativeScore text
  if total = 0 then (Sentiment.neutral, 0.6 + jitter)
  else
    let positiveRatio : ℚ := (positiveScore text : ℚ) / (total : ℚ)
    if positiveRatio > 0.6 then (Sentiment.positive, 0.7 + positiveRatio * 0.3)
    else if positiveRatio < 0.4 then (Sentiment.negative, 0.7 + (1 - positiveRatio) * 0.3)
    else (Sentiment.neutral, 0.6 + jitter)

example : (analyzeSentiment "good, great!" 0).1 = Sentiment.positive := by
  have h1 : positiveScore "good, great!" = 2 := by decide
  have h2 : negativeScore "good, great!" = 0 := by decide
  norm_num [analyzeSentiment, h1, h2]

example : (analyzeSentiment "bad" 0).1 = Sentiment.negative := by
  have h1 : positiveScore "bad" = 0 := by decide
  have h2 : negativeScore "bad" = 1 := by decide
  norm_num [analyzeSentiment, h1, h2]

example : (analyzeSentiment "good bad" 0).1 = Sentiment.neutral := by
  have h1 : positiveScore "good bad" = 1 := by decide
  have h2 : negativeScore "good bad" = 1 := by decide
  norm_num [analyzeSentiment, h1, h2]

/-- The stop-word set of `extractKeywords` (`SentimentAnalysis.tsx`). -/
def stopWords : List String :=
  ["the", "a", "an", "and", "or", "but", "in", "on", "at", "to", "for", "of", "with", "by", "is", "are", "was", "were",
   "be", "been", "have", "has", "had", "do", "does", "did", "will", "would", "could", "should", "may", "might", "can",
   "this", "that", "these", "those", "i", "you", "he", "she", "it", "we", "they", "me", "him", "her", "us", "them"]

/-- `text.toLowerCase().replace(/[^\w\s]/g, ' ').split(/\s+/)
   .filter(word => word.length > 2 && !stopWords.has(word))` —
the `words` local of `extractKeywords`. -/
def keywordTokens (text : String) : List String :=
  (((jsSplitWs ((text.data.map Char.toLower).map
        (fun c => if isWordChar c || isWsChar c then c else ' '))).map String.mk).filter
    (fun word => word.length > 2 && !(stopWords.contains word)))

/-- One iteration of `frequency[word] = (frequency[word] || 0) + 1`:
bump the count of an existing property, or create the word as a new property.
The accumulator records the properties in creation order; the enumeration
reordering that `Object.entries` applies to integer-like keys is modelled
separately by `objectEntries`. -/
def countStep (acc : List (String × ℕ)) (w : String) : List (String × ℕ) :=
  if acc.any (fun p => p.1 = w) then
    acc.map (fun p => if p.1 = w then (p.1, p.2 + 1) else p)
  else acc ++ [(w, 1)]

/-- The `frequency` object after the `forEach` loop, as a list of
`(word, count)` properties in creation (first-occurrence) order.  This is the
object's internal property order, not yet the `Object.entries` enumeration
order — see `objectEntries`. -/
def countTokens (ws : List String) : List (String × ℕ) :=
  ws.foldl countStep []

/-- A decimal digit (`0`–`9`). -/
def isDigitChar (c : Char) : Bool :=
  '0' ≤ c && c ≤ '9'

/-- Numeric value of a digit character. -/
def digitVal (c : Char) : ℕ :=
  c.toNat - 48

/-- Value of a decimal digit string. -/
def natOfDigits (l : List Char) : ℕ :=
  l.foldl (fun n c => n * 10 + digitVal c) 0

/-- Numeric value of a string key (meaningful for digit strings). -/
def keyNat (s : String) : ℕ :=
  natOfDigits s.data

/-- ECMA-262 array-index string: the canonical decimal representation
(digits only, no leading zero except `"0"` itself) of an integer below
`2^32 − 1`.  Property keys of this shape are enumerated before all other
string keys, in ascending numeric order. -/
def isArrayIndex (s : String) : Bool :=
  match s.data with
  | [] => false
  | c :: cs => (c :: cs).all isDigitChar && (c != '0' || cs.isEmpty) && keyNat s < 4294967295

/-- Insertion step for the ascending numeric sort of array-index keys. -/
def insertByKeyNat (x : String × ℕ) : List (String × ℕ) → List (String × ℕ)
  | [] => [x]
  | y :: ys => if keyNat x.1 ≤ keyNat y.1 then x :: y :: ys else y :: insertByKeyNat x ys

/-- Ascending sort of array-index entries by numeric key value (distinct
canonical keys never tie). -/
def sortByKeyNat : List (String × ℕ) → List (String × ℕ)
  | [] => []
  | x :: xs => insertByKeyNat x (sortByKeyNat xs)

/-- `Object.entries(frequency)`: per `OrdinaryOwnPropertyKeys`, array-index
keys come first in ascending numeric order, followed by the remaining string
keys in property creation order. -/
def objectEntries (tbl : List (String × ℕ)) : List (String × ℕ) :=
  sortByKeyNat (tbl.filter (fun p => isArrayIndex p.1)) ++
    tbl.filter (fun p => !(isArrayIndex p.1))

/-- Stable insertion step for `sortByCountDesc`: the element being inserted
precedes every already-present element of equal count, since it came earlier
in the original list. -/
def insertByCount (x : String × ℕ) : List (String × ℕ) → List (String × ℕ)
  | [] => [x]
  | y :: ys => if y.2 ≤ x.2 then x :: y :: ys else y :: insertByCount x ys

/-- `.sort(([,a],[,b]) => b - a)`: `Array.prototype.sort` is stable, so this
is the stable descending-by-count sort. -/
def sortByCountDesc : List (String × ℕ) → List (String × ℕ)
  | [] => []
  | x :: xs => insertByCount x (sortByCountDesc xs)

/-- `extractKeywords` (`SentimentAnalysis.tsx`, lines 80–102):
`Object.entries(frequency).sort(([,a],[,b]) => b - a).slice(0, 5).map(([word]) => word)`. -/
def extractKeywords (text : String) : List String :=
  (((sortByCountDesc (objectEntries (countTokens (keywordTokens text)))).take 5).map Prod.fst)

example : extractKeywords "The staff was very kind, and the staff was quick." =
    ["staff", "very", "kind", "quick"] := by decide
example : extractKeywords "" = [] := by decide
example : extractKeywords "aaa bbb 111" = ["111", "aaa", "bbb"] := by decide

/-- One entry of the `results` array built by `runAnalysis`
(`SentimentAnalysis.tsx`). -/
structure SentimentResult where
  comment : String
  sentiment : Sentiment
  confidence : ℚ
  keywords : List String
  deriving Repr, DecidableEq

/-- `Math.round x` on exact rationals: round half towards `+∞`. -/
def jsRound (x : ℚ) : ℤ :=
  ⌊x + 1 / 2⌋

/-- `results.filter(r => r.sentiment === 'positive').length`. -/
def posCount (results : List SentimentResult) : ℕ :=
  (results.filter (fun r => r.sentiment = Sentiment.positive)).length

/-- `results.filter(r => r.sentiment === 'negative').length`. -/
def negCount (results : List SentimentResult) : ℕ :=
  (results.filter (fun r => r.sentiment = Sentiment.negative)).length

/-- `results.filter(r => r.sentiment === 'neutral').length`. -/
def neuCount (results : List SentimentResult) : ℕ :=
  (results.filter (fun r => r.sentiment = Sentiment.neutral)).length

/-- `Math.round(((positive + 0.5 * neutral) / results.length) * 100 * 10) / 10`
(`SentimentAnalysis.tsx`, lines 171–173). -/
def satisfactionScore (results : List SentimentResult) : ℚ :=
  (jsRound ((((posCount results : ℚ) + 0.5 * (neuCount results : ℚ)) / (results.length : ℚ)) * 100 * 10) : ℚ) / 10

/-- `results.reduce((sum, r) => sum + r.confidence, 0) / results.length`. -/
def averageConfidence (results : List SentimentResult) : ℚ :=
  (results.foldl (fun sum r => sum + r.confidence) 0) / (results.length : ℚ)

/-- The `AnalysisResults` record assembled by `runAnalysis`; the purely
cosmetic `jobId` / `timestamp` / `modelUsed` fields are omitted. -/
structure AnalysisResults where
  results : List SentimentResult
  totalComments : ℕ
  uniqueComments : ℕ
  duplicatesIgnored : ℤ
  sentimentCounts : ℕ × ℕ × ℕ
  satisfactionScore : ℚ
  averageConfidence : ℚ
  deriving Repr, DecidableEq

/-- The algorithmic core of `runAnalysis` (`SentimentAnalysis.tsx`,
lines 125–199).  The early return on `comments.length === 0` (an error toast
in the source) is modelled by `none`; `jitter i` stands for the
`Math.random() * 0.2` value drawn while classifying the `i`-th unique
comment. -/
def runAnalysis (comments : List String) (jitter : ℕ → ℚ) : Option AnalysisResults :=
  if comments.length = 0 then none
  else
    let uniqueComments := jsSetDedup comments
    let results : List SentimentResult := uniqueComments.enum.map (fun p =>
      let sc := analyzeSentiment p.2 (jitter p.1)
      { comment := p.2, sentiment := sc.1, confidence := sc.2, keywords := extractKeywords p.2 })
    some { results := results
           totalComments := comments.length
           uniqueComments := uniqueComments.length
           duplicatesIgnored := (comments.length : ℤ) - (uniqueComments.length : ℤ)
           sentimentCounts := (posCount results, negCount results, neuCount results)
           satisfactionScore := satisfactionScore results
           averageConfidence := averageConfidence results }

example : (runAnalysis ["a", "b", "a"] (fun _ => 0)).map (fun s => s.uniqueComments) = some 2 := by
  decide

/-! ### Properties of `jsSetDedup` (the `[...new Set(l)]` idiom) -/

theorem mem_jsSetDedup {a : String} : ∀ {l : List String}, a ∈ jsSetDedup l ↔ a ∈ l
  | [] => Iff.rfl
  | x :: xs => by
    by_cases hax : a = x
    · subst hax
      simp [jsSetDedup]
    · simp only [jsSetDedup, List.mem_cons, hax, false_or]
      rw [List.mem_erase_of_ne hax]
      exact mem_jsSetDedup

theorem nodup_jsSetDedup : ∀ l : List String, (jsSetDedup l).Nodup
  | [] => List.nodup_nil
  | x :: xs => by
    have ih := nodup_jsSetDedup xs
    refine List.nodup_cons.2 ⟨ih.not_mem_erase, ih.erase x⟩

theorem jsSetDedup_sublist : ∀ l : List String, List.Sublist (jsSetDedup l) l
  | [] => List.Sublist.refl []
  | x :: xs =>
    List.Sublist.cons₂ x ((List.erase_sublist x (jsSetDedup xs)).trans (jsSetDedup_sublist xs))

theorem length_jsSetDedup_le (l : List String) : (jsSetDedup l).length ≤ l.length :=
  (jsSetDedup_sublist l).length_le

theorem jsSetDedup_eq_nil_iff {l : List String} : jsSetDedup l = [] ↔ l = [] := by
  cases l with
  | nil => simp [jsSetDedup]
  | cons x xs => simp [jsSetDedup]

/-- In the deduplicated list, elements are ordered by the position of their
first occurrence in the original list. -/
theorem jsSetDedup_pairwise_indexOf :
    ∀ l : List String, (jsSetDedup l).Pairwise (fun a b => l.indexOf a < l.indexOf b)
  | [] => List.Pairwise.nil
  | x :: xs => by
    have ih := jsSetDedup_pairwise_indexOf xs
    have hnd := nodup_jsSetDedup xs
    refine List.pairwise_cons.2 ⟨?_, ?_⟩
    · intro b hb
      have hbx : b ≠ x := (hnd.mem_erase_iff.1 hb).1
      rw [List.indexOf_cons_self, List.indexOf_cons_ne _ (Ne.symm hbx)]
      exact Nat.succ_pos _
    · have herase : ((jsSetDedup xs).erase x).Pairwise (fun a b => xs.indexOf a < xs.indexOf b) :=
        ih.sublist (List.erase_sublist x (jsSetDedup xs))
      refine List.Pairwise.imp_of_mem (fun ha hb hlt => ?_) herase
      have hax : _ ≠ x := (hnd.mem_erase_iff.1 ha).1
      have hbx : _ ≠ x := (hnd.mem_erase_iff.1 hb).1
      rw [List.indexOf_cons_ne _ (Ne.symm hax), List.indexOf_cons_ne _ (Ne.symm hbx)]
      exact Nat.succ_lt_succ hlt

/-! ### Properties of `jsSplitWs` -/

theorem jsSplitWsGo_ne_nil : ∀ (rest cur : List Char), jsSplitWsGo cur rest ≠ []
  | [], cur => by simp [jsSplitWsGo]
  | c :: cs, cur => by
    simp only [jsSplitWsGo]
    split
    · exact List.cons_ne_nil _ _
    · exact jsSplitWsGo_ne_nil cs (c :: cur)

theorem jsSplitWsSkip_ne_nil : ∀ rest : List Char, jsSplitWsSkip rest ≠ []
  | [] => by simp [jsSplitWsSkip]
  | c :: cs => by
    simp only [jsSplitWsSkip]
    split
    · exact jsSplitWsSkip_ne_nil cs
    · exact jsSplitWsGo_ne_nil cs [c]

/-- The JS split `s.split(/\s+/)` has exactly one field iff `s` contains no
whitespace character at all. -/
theorem jsSplitWsGo_length_eq_one :
    ∀ (rest cur : List Char), (jsSplitWsGo cur rest).length = 1 ↔ ∀ c ∈ rest, isWsChar c = false
  | [], cur => by simp [jsSplitWsGo]
  | c :: cs, cur => by
    simp only [jsSplitWsGo]
    by_cases hw : isWsChar c
    · rw [if_pos hw]
      have hpos : 0 < (jsSplitWsSkip cs).length :=
        List.length_pos.2 (jsSplitWsSkip_ne_nil cs)
      simp only [List.length_cons]
      constructor
      · intro h1
        omega
      · intro hall
        exact absurd (hall c (List.mem_cons_self c cs)) (by simp [hw])
    · rw [if_neg hw]
      rw [jsSplitWsGo_length_eq_one cs (c :: cur)]
      constructor
      · intro hall c' hc'
        rcases List.mem_cons.1 hc' with rfl | hc'
        · exact Bool.eq_false_iff.2 hw
        · exact hall c' hc'
      · intro hall c' hc'
        exact hall c' (List.mem_cons_of_mem c hc')

theorem jsSplitWs_length_eq_one {s : List Char} :
    (jsSplitWs s).length = 1 ↔ ∀ c ∈ s, isWsChar c = false :=
  jsSplitWsGo_length_eq_one s []

/-- A line is "single-token" in the sense of `processTextInput` iff its length
is at most 3 or it contains no whitespace character. -/
theorem isSingleTokenLine_iff (line : String) :
    isSingleTokenLine line = true ↔ line.length ≤ 3 ∨ ∀ c ∈ line.data, isWsChar c = false := by
  simp only [isSingleTokenLine, Bool.or_eq_true, decide_eq_true_eq]
  rw [jsSplitWs_length_eq_one]

/-! ### The shape of a successful `processTextInput` -/

/-- Field-level description of any `ParsedData` produced by
`processTextInput`. -/
theorem processTextInput_some_spec (text : String) (b : ParsedData)
    (h : processTextInput text = some b) :
    b.comments = normLines text ∧
    b.rawCount = (normLines text).length ∧
    b.uniqueCount = (jsSetDedup (normLines text)).length ∧
    b.duplicateCount = ((normLines text).length : ℤ) - ((jsSetDedup (normLines text)).length : ℤ) ∧
    b.singleTokenPercentage =
      (((normLines text).filter isSingleTokenLine).length : ℚ) / ((normLines text).length : ℚ) * 100 ∧
    b.singleTokenWarning = decide (b.singleTokenPercentage > 40) := by
  by_cases hn : (normLines text).length = 0
  · simp [processTextInput, hn] at h
  · simp only [processTextInput, if_neg hn, Option.some.injEq] at h
    subst h
    exact ⟨rfl, rfl, rfl, rfl, rfl, rfl⟩

/-! ### Claim C1 -/

/-- C1, counterexample: on the input `"a\na"` the batch returned by
`processTextInput` has `uniqueCount = 1` but `comments` of length `2` — the
`comments` field keeps every trimmed non-empty line, it is not the
deduplicated sequence, so `uniqueCount = length(comments)` fails. -/
theorem processTextInput_uniqueCount_ne_length_comments :
    (processTextInput "a\na").map (fun b => decide (b.uniqueCount = b.comments.length)) =
      some false := by
  decide

/-- C1, amended: for every accepted input, `uniqueCount` is the number of
distinct trimmed lines, `uniqueCount ≤ rawCount`,
`duplicateCount = rawCount − uniqueCount`, and it is `rawCount` (not
`uniqueCount`) that equals `length(comments)`. -/
theorem processTextInput_count_invariants (text : String) (b : ParsedData)
    (h : processTextInput text = some b) :
    b.uniqueCount = (jsSetDedup (normLines text)).length ∧
    b.uniqueCount ≤ b.rawCount ∧
    b.duplicateCount = (b.rawCount : ℤ) - (b.uniqueCount : ℤ) ∧
    b.rawCount = b.comments.length := by
  obtain ⟨hc, hr, hu, hd, -, -⟩ := processTextInput_some_spec text b h
  refine ⟨hu, ?_, ?_, ?_⟩
  · rw [hu, hr]
    exact length_jsSetDedup_le _
  · rw [hd, hr, hu]
  · rw [hr, hc]

/-- Witness for `processTextInput_count_invariants` at the concrete input
`"a\nb\na"`. -/
theorem processTextInput_count_invariants_witness :
    ∃ b, processTextInput "a\nb\na" = some b ∧
      (b.uniqueCount = (jsSetDedup (normLines "a\nb\na")).length ∧
       b.uniqueCount ≤ b.rawCount ∧
       b.duplicateCount = (b.rawCount : ℤ) - (b.uniqueCount : ℤ) ∧
       b.rawCount = b.comments.length) := by
  have hs : (processTextInput "a\nb\na").isSome = true := by decide
  exact ⟨(processTextInput "a\nb\na").get hs, (Option.some_get hs).symm,
    processTextInput_count_invariants _ _ (Option.some_get hs).symm⟩

/-! ### Claim C7 -/

/-- C7: `processTextInput` fails (the source throws) exactly when no non-empty
line remains after splitting on line breaks and trimming; a single non-empty
trimmed line yields a batch with `rawCount = 1`. -/
theorem processTextInput_none_iff (text : String) :
    (processTextInput text = none ↔ normLines text = []) ∧
    (∀ line : String, normLines text = [line] →
      ∃ b, processTextInput text = some b ∧ b.rawCount = 1) := by
  constructor
  · by_cases hn : (normLines text).length = 0
    · simp only [processTextInput, if_pos hn]
      simpa [List.length_eq_zero] using hn
    · simp only [processTextInput, if_neg hn]
      constructor
      · intro h
        exact absurd h (Option.some_ne_none _)
      · intro h
        exact absurd (by simp [h] : (normLines text).length = 0) hn
  · intro line hline
    have hn : (normLines text).length ≠ 0 := by simp [hline]
    have hsome : ∃ b, processTextInput text = some b := by
      simp only [processTextInput, if_neg hn]
      exact ⟨_, rfl⟩
    obtain ⟨b, hb⟩ := hsome
    refine ⟨b, hb, ?_⟩
    rw [(processTextInput_some_spec text b hb).2.1, hline]
    rfl

/-- Witness for `processTextInput_none_iff`: the blank input `" \n"` is
rejected and the one-line input `" hi "` yields `rawCount = 1`. -/
theorem processTextInput_none_iff_witness :
    processTextInput "  \n " = none ∧
    ∃ b, processTextInput " hi " = some b ∧ b.rawCount = 1 := by
  refine ⟨(processTextInput_none_iff "  \n ").1.2 (by decide), ?_⟩
  exact (processTextInput_none_iff " hi ").2 "hi" (by decide)

/-! ### Claim C6 -/

/-- C6: the single-token percentage equals
`100 × count(singleToken) / length(rawLines)`, a line counting as
single-token iff its trimmed length is at most 3 or it contains no
whitespace; the warning flag is set iff the percentage strictly exceeds 40,
so it is off exactly at the 40.0 boundary. -/
theorem processTextInput_singleToken_spec (text : String) (b : ParsedData)
    (h : processTextInput text = some b) :
    b.singleTokenPercentage =
      100 * (((normLines text).filter isSingleTokenLine).length : ℚ) /
        ((normLines text).length : ℚ) ∧
    (∀ line ∈ normLines text,
      isSingleTokenLine line = true ↔ line.length ≤ 3 ∨ ∀ c ∈ line.data, isWsChar c = false) ∧
    (b.singleTokenWarning = true ↔ b.singleTokenPercentage > 40) ∧
    (b.singleTokenPercentage = 40 → b.singleTokenWarning = false) := by
  obtain ⟨-, -, -, -, hp, hw⟩ := processTextInput_some_spec text b h
  refine ⟨?_, fun line _ => isSingleTokenLine_iff line, ?_, ?_⟩
  · rw [hp]
    ring
  · rw [hw]
    exact decide_eq_true_iff
  · intro h40
    rw [hw, h40]
    simp

/-- Witness for `processTextInput_singleToken_spec` at `"ok\nlong comment"`. -/
theorem processTextInput_singleToken_spec_witness :
    ∃ b, processTextInput "ok\nlong comment" = some b ∧
      b.singleTokenPercentage =
        100 * (((normLines "ok\nlong comment").filter isSingleTokenLine).length : ℚ) /
          ((normLines "ok\nlong comment").length : ℚ) := by
  have hs : (processTextInput "ok\nlong comment").isSome = true := by decide
  exact ⟨(processTextInput "ok\nlong comment").get hs, (Option.some_get hs).symm,
    (processTextInput_singleToken_spec _ _ (Option.some_get hs).symm).1⟩

/-! ### Claim C8 -/

/-- C8: deduplication (the `[...new Set(...)]` step on the trimmed lines) is
order-preserving and case-sensitive: the result is a duplicate-free sublist of
the trimmed lines that contains every trimmed line, ordered by position of
first occurrence; trimming happens before comparison (so padding is ignored)
and distinct strings — in particular strings differing only in case — stay
distinct. -/
theorem jsSetDedup_order_preserving (text : String) :
    (jsSetDedup (normLines text)).Nodup ∧
    List.Sublist (jsSetDedup (normLines text)) (normLines text) ∧
    (∀ a, a ∈ jsSetDedup (normLines text) ↔ a ∈ normLines text) ∧
    (jsSetDedup (normLines text)).Pairwise
      (fun a b => (normLines text).indexOf a < (normLines text).indexOf b) ∧
    (∀ a b, a ∈ normLines text → b ∈ normLines text → a ≠ b →
      a ∈ jsSetDedup (normLines text) ∧ b ∈ jsSetDedup (normLines text)) ∧
    (∀ s ∈ splitLines text, jsTrim s ≠ "" → jsTrim s ∈ jsSetDedup (normLines text)) := by
  refine ⟨nodup_jsSetDedup _, jsSetDedup_sublist _, fun a => mem_jsSetDedup,
    jsSetDedup_pairwise_indexOf _, ?_, ?_⟩
  · intro a b ha hb _
    exact ⟨mem_jsSetDedup.2 ha, mem_jsSetDedup.2 hb⟩
  · intro s hs hne
    refine mem_jsSetDedup.2 ?_
    refine List.mem_filter.2 ⟨List.mem_map_of_mem jsTrim hs, ?_⟩
    simp only [decide_eq_true_eq]
    have hlen : (jsTrim s).length ≠ 0 := by
      intro h0
      apply hne
      cases hs' : jsTrim s with
      | mk data =>
        cases data with
        | nil => rfl
        | cons c cs => rw [hs'] at h0; simp [String.length] at h0
    omega

/-- Witness for `jsSetDedup_order_preserving` at the concrete input
`" a \nA\na"`: `"a"` (trimmed from `" a "`) and `"A"` are both kept. -/
theorem jsSetDedup_order_preserving_witness :
    "a" ∈ jsSetDedup (normLines " a \nA\na") ∧ "A" ∈ jsSetDedup (normLines " a \nA\na") :=
  (jsSetDedup_order_preserving " a \nA\na").2.2.2.2.1 "a" "A" (by decide) (by decide) (by decide)

/-! ### Claim C3 -/

/-- C3: classification is total and follows the ratio thresholds: with
`ratio = positiveScore / (positiveScore + negativeScore)`, a ratio above 0.6
gives Positive with confidence `0.7 + ratio × 0.3`, below 0.4 gives Negative
with confidence `0.7 + (1 − ratio) × 0.3`, anything else — including zero
lexicon hits — gives Neutral; the confidence always lies in `[0, 1]`
(`jitter` is the value of `Math.random() * 0.2`, hence in `[0, 0.2)`). -/
theorem analyzeSentiment_spec (text : String) (jitter : ℚ)
    (hj0 : 0 ≤ jitter) (hj1 : jitter < 0.2) :
    (positiveScore text + negativeScore text = 0 →
      analyzeSentiment text jitter = (Sentiment.neutral, 0.6 + jitter)) ∧
    (positiveScore text + negativeScore text ≠ 0 →
      ((positiveScore text : ℚ) / ((positiveScore text + negativeScore text : ℕ) : ℚ) > 0.6 →
        analyzeSentiment text jitter = (Sentiment.positive,
          0.7 + (positiveScore text : ℚ) / ((positiveScore text + negativeScore text : ℕ) : ℚ) * 0.3)) ∧
      ((positiveScore text : ℚ) / ((positiveScore text + negativeScore text : ℕ) : ℚ) < 0.4 →
        analyzeSentiment text jitter = (Sentiment.negative,
          0.7 + (1 - (positiveScore text : ℚ) / ((positiveScore text + negativeScore text : ℕ) : ℚ)) * 0.3)) ∧
      (0.4 ≤ (positiveScore text : ℚ) / ((positiveScore text + negativeScore text : ℕ) : ℚ) →
        (positiveScore text : ℚ) / ((positiveScore text + negativeScore text : ℕ) : ℚ) ≤ 0.6 →
        analyzeSentiment text jitter = (Sentiment.neutral, 0.6 + jitter))) ∧
    0 ≤ (analyzeSentiment text jitter).2 ∧ (analyzeSentiment text jitter).2 ≤ 1 := by
  by_cases ht : positiveScore text + negativeScore text = 0
  · refine ⟨fun _ => by simp [analyzeSentiment, ht], fun hne => absurd ht hne, ?_⟩
    simp only [analyzeSentiment, ht, if_pos]
    constructor <;> [linarith; linarith [hj1]]
  · have hden : (0:ℚ) < ((positiveScore text + negativeScore text : ℕ) : ℚ) := by
      exact_mod_cast Nat.pos_of_ne_zero ht
    have hr0 : (0:ℚ) ≤ (positiveScore text : ℚ) / ((positiveScore text + negativeScore text : ℕ) : ℚ) :=
      div_nonneg (Nat.cast_nonneg _) hden.le
    have hr1 : (positiveScore text : ℚ) / ((positiveScore text + negativeScore text : ℕ) : ℚ) ≤ 1 := by
      rw [div_le_one hden]
      exact_mod_cast Nat.le_add_right _ _
    refine ⟨fun h0 => absurd h0 ht, fun _ => ?_, ?_⟩
    · refine ⟨fun hgt => ?_, fun hlt => ?_, fun hge hle => ?_⟩
      · simp only [analyzeSentiment, if_neg ht]
        rw [if_pos hgt]
      · simp only [analyzeSentiment, if_neg ht]
        rw [if_neg (by linarith), if_pos hlt]
      · simp only [analyzeSentiment, if_neg ht]
        rw [if_neg (by linarith), if_neg (by linarith)]
    · simp only [analyzeSentiment, if_neg ht]
      split_ifs with hgt hlt
      · constructor <;> nlinarith
      · constructor <;> nlinarith
      · constructor <;> [linarith; linarith [hj1]]

/-- Witness for `analyzeSentiment_spec`: the empty string has zero lexicon
hits and is classified Neutral with confidence `0.6` at jitter `0`. -/
theorem analyzeSentiment_spec_witness :
    analyzeSentiment "" 0 = (Sentiment.neutral, 0.6 + 0) ∧
    0 ≤ (analyzeSentiment "" 0).2 ∧ (analyzeSentiment "" 0).2 ≤ 1 := by
  have h := analyzeSentiment_spec "" 0 (by norm_num) (by norm_num)
  exact ⟨h.1 (by decide), h.2.2⟩

/-! ### Claim C10 -/

/-- C10: the sentiment label never depends on the random jitter, and in the
Positive and Negative branches the confidence is also independent of it; only
the Neutral branches read the randomness source. -/
theorem analyzeSentiment_jitter_independent (text : String) (j1 j2 : ℚ) :
    (analyzeSentiment text j1).1 = (analyzeSentiment text j2).1 ∧
    ((analyzeSentiment text j1).1 = Sentiment.positive ∨
      (analyzeSentiment text j1).1 = Sentiment.negative →
      (analyzeSentiment text j1).2 = (analyzeSentiment text j2).2) := by
  simp only [analyzeSentiment]
  split_ifs <;> simp

/-- Witness for `analyzeSentiment_jitter_independent` on `"good"` (a Positive
classification) at jitters `0` and `1/10`. -/
theorem analyzeSentiment_jitter_independent_witness :
    (analyzeSentiment "good" 0).2 = (analyzeSentiment "good" (1/10)).2 := by
  have h1 : positiveScore "good" = 1 := by decide
  have h2 : negativeScore "good" = 0 := by decide
  have hlabel : (analyzeSentiment "good" 0).1 = Sentiment.positive := by
    norm_num [analyzeSentiment, h1, h2]
  exact (analyzeSentiment_jitter_independent "good" 0 (1/10)).2 (Or.inl hlabel)

/-! ### The aggregation step -/

/-- Every result has exactly one of the three labels, so the three filtered
counts partition the result list. -/
theorem counts_sum (results : List SentimentResult) :
    posCount results + negCount results + neuCount results = results.length := by
  induction results with
  | nil => rfl
  | cons r rs ih =>
    simp only [posCount, negCount, neuCount, List.filter_cons] at *
    cases hr : r.sentiment <;> simp [hr] <;> omega

/-- `satisfactionScore` written with the positive and neutral counts and the
length abstracted out. -/
theorem satisfactionScore_eq (results : List SentimentResult) :
    satisfactionScore results =
      ((⌊(((posCount results : ℚ) + 0.5 * (neuCount results : ℚ)) / (results.length : ℚ)) * 100 * 10
          + 1 / 2⌋ : ℤ) : ℚ) / 10 :=
  rfl

/-! ### Claim C9 -/

/-- C9: for a non-empty result list the three sentiment counts sum to the
number of results, the satisfaction score lies in `[0, 100]`, and an
all-positive / all-negative / all-neutral result list scores exactly
`100` / `0` / `50`. -/
theorem aggregate_spec (results : List SentimentResult) (hne : results ≠ []) :
    posCount results + negCount results + neuCount results = results.length ∧
    0 ≤ satisfactionScore results ∧ satisfactionScore results ≤ 100 ∧
    ((∀ r ∈ results, r.sentiment = Sentiment.positive) → satisfactionScore results = 100) ∧
    ((∀ r ∈ results, r.sentiment = Sentiment.negative) → satisfactionScore results = 0) ∧
    ((∀ r ∈ results, r.sentiment = Sentiment.neutral) → satisfactionScore results = 50) := by
  have hsum := counts_sum results
  have hn : 0 < results.length := List.length_pos.2 hne
  have hnq : (0:ℚ) < (results.length : ℚ) := by exact_mod_cast hn
  refine ⟨hsum, ?_, ?_, ?_, ?_, ?_⟩
  · rw [satisfactionScore_eq]
    have h0 : (0:ℤ) ≤ ⌊(((posCount results : ℚ) + 0.5 * (neuCount results : ℚ)) /
        (results.length : ℚ)) * 100 * 10 + 1 / 2⌋ := by
      refine Int.le_floor.2 ?_
      have ha : (0:ℚ) ≤ (((posCount results : ℚ) + 0.5 * (neuCount results : ℚ)) /
          (results.length : ℚ)) := by positivity
      push_cast
      nlinarith
    have : (0:ℚ) ≤ ((⌊(((posCount results : ℚ) + 0.5 * (neuCount results : ℚ)) /
        (results.length : ℚ)) * 100 * 10 + 1 / 2⌋ : ℤ) : ℚ) := by exact_mod_cast h0
    linarith
  · rw [satisfactionScore_eq]
    have hPU : (posCount results : ℚ) + 0.5 * (neuCount results : ℚ) ≤ (results.length : ℚ) := by
      have h1 : posCount results + neuCount results ≤ results.length := by omega
      have h2 : (posCount results : ℚ) + (neuCount results : ℚ) ≤ (results.length : ℚ) := by
        exact_mod_cast h1
      have h3 : (0:ℚ) ≤ (neuCount results : ℚ) := Nat.cast_nonneg _
      linarith
    have ha1 : (((posCount results : ℚ) + 0.5 * (neuCount results : ℚ)) /
        (results.length : ℚ)) ≤ 1 := (div_le_one hnq).2 hPU
    have hfl : ⌊(((posCount results : ℚ) + 0.5 * (neuCount results : ℚ)) /
        (results.length : ℚ)) * 100 * 10 + 1 / 2⌋ ≤ 1000 := by
      have : ⌊(((posCount results : ℚ) + 0.5 * (neuCount results : ℚ)) /
          (results.length : ℚ)) * 100 * 10 + 1 / 2⌋ < 1001 := by
        refine Int.floor_lt.2 ?_
        push_cast
        nlinarith
      omega
    have : ((⌊(((posCount results : ℚ) + 0.5 * (neuCount results : ℚ)) /
        (results.length : ℚ)) * 100 * 10 + 1 / 2⌋ : ℤ) : ℚ) ≤ 1000 := by exact_mod_cast hfl
    linarith
  · intro hall
    have hP : posCount results = results.length := by
      unfold posCount
      rw [List.filter_eq_self.2 (fun r hr => by simp [hall r hr])]
    have hU : neuCount results = 0 := by
      unfold neuCount
      rw [List.length_eq_zero, List.filter_eq_nil_iff]
      intro r hr
      simp [hall r hr]
    rw [satisfactionScore_eq, hP, hU]
    rw [show ((((results.length : ℕ) : ℚ) + 0.5 * ((0:ℕ) : ℚ)) / (results.length : ℚ)) * 100 * 10
        = 1000 by push_cast; field_simp; norm_num]
    norm_num
  · intro hall
    have hP : posCount results = 0 := by
      unfold posCount
      rw [List.length_eq_zero, List.filter_eq_nil_iff]
      intro r hr
      simp [hall r hr]
    have hU : neuCount results = 0 := by
      unfold neuCount
      rw [List.length_eq_zero, List.filter_eq_nil_iff]
      intro r hr
      simp [hall r hr]
    rw [satisfactionScore_eq, hP, hU]
    rw [show ((((0:ℕ) : ℚ) + 0.5 * ((0:ℕ) : ℚ)) / (results.length : ℚ)) * 100 * 10 = 0 by
      push_cast; field_simp]
    norm_num
  · intro hall
    have hP : posCount results = 0 := by
      unfold posCount
      rw [List.length_eq_zero, List.filter_eq_nil_iff]
      intro r hr
      simp [hall r hr]
    have hU : neuCount results = results.length := by
      unfold neuCount
      rw [List.filter_eq_self.2 (fun r hr => by simp [hall r hr])]
    rw [satisfactionScore_eq, hP, hU]
    rw [show ((((0:ℕ) : ℚ) + 0.5 * ((results.length : ℕ) : ℚ)) / (results.length : ℚ)) * 100 * 10
        = 500 by push_cast; field_simp; ring]
    norm_num

/-- Witness for `aggregate_spec`: a single all-positive result scores 100. -/
theorem aggregate_spec_witness :
    satisfactionScore [⟨"good", Sentiment.positive, 1, []⟩] = 100 :=
  (aggregate_spec [⟨"good", Sentiment.positive, 1, []⟩] (by decide)).2.2.2.1 (by decide)

/-! ### Claim C2 -/

/-- C2: the aggregation never divides by zero unguarded — a batch with no
unique comments (possible only for an empty comment list) makes `runAnalysis`
fail before any score is computed, and every produced summary has a non-empty
result list, so the divisions in `satisfactionScore` and `averageConfidence`
have a positive denominator. -/
theorem runAnalysis_zero_guard (comments : List String) (jitter : ℕ → ℚ) :
    (runAnalysis comments jitter = none ↔ comments = []) ∧
    ((jsSetDedup comments).length = 0 → runAnalysis comments jitter = none) ∧
    (∀ s, runAnalysis comments jitter = some s → 0 < s.results.length) := by
  by_cases hc : comments.length = 0
  · rw [List.length_eq_zero] at hc
    subst hc
    refine ⟨by simp [runAnalysis], fun _ => by simp [runAnalysis], fun s hs => ?_⟩
    simp [runAnalysis] at hs
  · have hne : comments ≠ [] := fun h => hc (by simp [h])
    refine ⟨?_, ?_, ?_⟩
    · simp only [runAnalysis, if_neg hc]
      exact ⟨fun h => absurd h (Option.some_ne_none _), fun h => absurd h hne⟩
    · intro hdl
      exact absurd (jsSetDedup_eq_nil_iff.1 (List.length_eq_zero.1 hdl)) hne
    · intro s hs
      simp only [runAnalysis, if_neg hc, Option.some.injEq] at hs
      subst hs
      simp only [List.length_map, List.enum_length]
      have : jsSetDedup comments ≠ [] := fun h => hne (jsSetDedup_eq_nil_iff.1 h)
      exact List.length_pos.2 this

/-- Witness for `runAnalysis_zero_guard`: the empty batch fails, and the
one-comment batch `["good"]` yields a summary with a positive result count. -/
theorem runAnalysis_zero_guard_witness :
    runAnalysis [] (fun _ => 0) = none ∧
    ∃ s, runAnalysis ["good"] (fun _ => 0) = some s ∧ 0 < s.results.length := by
  refine ⟨(runAnalysis_zero_guard [] (fun _ => 0)).2.1 (by decide), ?_⟩
  have hs : (runAnalysis ["good"] (fun _ => 0)).isSome = true := by decide
  exact ⟨_, (Option.some_get hs).symm,
    (runAnalysis_zero_guard ["good"] (fun _ => 0)).2.2 _ (Option.some_get hs).symm⟩

/-! ### The keyword frequency table -/

mutual

/-- Every character of every field of the whitespace split satisfies `P`,
provided the pending token and every non-whitespace input character do. -/
theorem jsSplitWsGo_token_chars (P : Char → Prop) :
    ∀ (rest cur : List Char), (∀ c ∈ cur, P c) →
      (∀ c ∈ rest, isWsChar c = true ∨ P c) →
      ∀ t ∈ jsSplitWsGo cur rest, ∀ c ∈ t, P c
  | [], cur, hcur, _, t, ht, c, hc => by
    simp only [jsSplitWsGo, List.mem_singleton] at ht
    subst ht
    exact hcur c (List.mem_reverse.1 hc)
  | r :: rs, cur, hcur, hrest, t, ht, c, hc => by
    simp only [jsSplitWsGo] at ht
    by_cases hw : isWsChar r
    · rw [if_pos hw] at ht
      rcases List.mem_cons.1 ht with rfl | ht
      · exact hcur c (List.mem_reverse.1 hc)
      · exact jsSplitWsSkip_token_chars P rs
          (fun c' hc' => hrest c' (List.mem_cons_of_mem r hc')) t ht c hc
    · rw [if_neg hw] at ht
      refine jsSplitWsGo_token_chars P rs (r :: cur) ?_
        (fun c' hc' => hrest c' (List.mem_cons_of_mem r hc')) t ht c hc
      intro c' hc'
      rcases List.mem_cons.1 hc' with rfl | hc'
      · rcases hrest c' (List.mem_cons_self c' rs) with hws | hp
        · exact absurd hws (by simpa using hw)
        · exact hp
      · exact hcur c' hc'

theorem jsSplitWsSkip_token_chars (P : Char → Prop) :
    ∀ rest : List Char, (∀ c ∈ rest, isWsChar c = true ∨ P c) →
      ∀ t ∈ jsSplitWsSkip rest, ∀ c ∈ t, P c
  | [], _, t, ht, c, hc => by
    simp only [jsSplitWsSkip, List.mem_singleton] at ht
    subst ht
    simp at hc
  | r :: rs, hrest, t, ht, c, hc => by
    simp only [jsSplitWsSkip] at ht
    by_cases hw : isWsChar r
    · rw [if_pos hw] at ht
      exact jsSplitWsSkip_token_chars P rs
        (fun c' hc' => hrest c' (List.mem_cons_of_mem r hc')) t ht c hc
    · rw [if_neg hw] at ht
      refine jsSplitWsGo_token_chars P rs [r] ?_
        (fun c' hc' => hrest c' (List.mem_cons_of_mem r hc')) t ht c hc
      intro c' hc'
      rcases List.mem_singleton.1 hc' with rfl
      rcases hrest c' (List.mem_cons_self c' rs) with hws | hp
      · exact absurd hws (by simpa using hw)
      · exact hp

end

/-- `Math.round` over the reals: `⌊x + 1/2⌋`. -/
noncomputable def jsRoundR (x : ℝ) : ℤ :=
  ⌊x + 1 / 2⌋

/-- `minFontPx = Math.max(10, Math.round(width * 0.018))`. -/
noncomputable def minFontPx (width : ℝ) : ℤ :=
  max 10 (jsRoundR (width * 0.018))

/-- `maxFontPx = Math.max(minFontPx + 10, Math.round(width * 0.085))`. -/
noncomputable def maxFontPx (width : ℝ) : ℤ :=
  max (minFontPx width + 10) (jsRoundR (width * 0.085))

/-- The `weightFactor` callback of `WordCloudComponent` (`Index.tsx`, lines
250–258): when all frequencies are equal it returns the rounded midpoint of
the font range, otherwise the log-compressed interpolation. -/
noncomputable def weightFactor (width minFreq maxFreq size : ℝ) : ℤ :=
  if maxFreq = minFreq then jsRoundR (((minFontPx width : ℝ) + (maxFontPx width : ℝ)) / 2)
  else
    let logMin := Real.log (minFreq + 1)
    let logMax := Real.log (maxFreq + 1)
    let logVal := Real.log (size + 1)
    let t := (logVal - logMin) / (logMax - logMin)
    jsRoundR ((minFontPx width : ℝ) + t * ((maxFontPx width : ℝ) - (minFontPx width : ℝ)))

/-- The spec's interpolation parameter: `t = 0.5` uniformly when
`maxFreq = minFreq`, else the log-compressed value.  Stated from the spec's
words, to be compared with `weightFactor`. -/
noncomputable def specFontT (minFreq maxFreq freq : ℝ) : ℝ :=
  if maxFreq = minFreq then 0.5
  else (Real.log (freq + 1) - Real.log (minFreq + 1)) /
    (Real.log (maxFreq + 1) - Real.log (minFreq + 1))

/-- The spec's font size: `round(minFontPx + t × (maxFontPx − minFontPx))`. -/
noncomputable def specFontSize (width minFreq maxFreq freq : ℝ) : ℤ :=
  jsRoundR ((minFontPx width : ℝ) +
    specFontT minFreq maxFreq freq * ((maxFontPx width : ℝ) - (minFontPx width : ℝ)))

/-! ### Claim C5 -/

/-- C5: the font size computed by `weightFactor` equals the spec's
`round(minFontPx + t × (maxFontPx − minFontPx))` formula (with `t = 0.5`
uniformly in the equal-frequency case), the font range is as specified, and
the assignment is monotone in frequency, so the most frequent word gets a
font size at least as large as any less frequent word. -/
theorem weightFactor_spec (width minFreq maxFreq : ℝ) :
    (∀ size : ℝ, weightFactor width minFreq maxFreq size =
      specFontSize width minFreq maxFreq size) ∧
    10 ≤ minFontPx width ∧ minFontPx width + 10 ≤ maxFontPx width ∧
    (∀ f₁ f₂ : ℝ, 0 < minFreq → minFreq ≤ f₂ → f₂ ≤ f₁ → f₁ ≤ maxFreq →
      weightFactor width minFreq maxFreq f₂ ≤ weightFactor width minFreq maxFreq f₁) := by
  refine ⟨?_, le_max_left _ _, le_max_left _ _, ?_⟩
  · intro size
    by_cases h : maxFreq = minFreq
    · simp only [weightFactor, specFontSize, specFontT, if_pos h]
      congr 1
      ring
    · simp only [weightFactor, specFontSize, specFontT, if_neg h]
  · intro f₁ f₂ h0 h2 h21 h1
    by_cases heq : maxFreq = minFreq
    · simp only [weightFactor, if_pos heq]
      exact le_refl _
    · have hlt : minFreq < maxFreq :=
        lt_of_le_of_ne (le_trans h2 (le_trans h21 h1)) (fun h => heq h.symm)
      have hd : Real.log (minFreq + 1) < Real.log (maxFreq + 1) :=
        Real.log_lt_log (by linarith) (by linarith)
      have hnum : Real.log (f₂ + 1) ≤ Real.log (f₁ + 1) :=
        Real.log_le_log (by linarith) (by linarith)
      have hT : (Real.log (f₂ + 1) - Real.log (minFreq + 1)) /
            (Real.log (maxFreq + 1) - Real.log (minFreq + 1)) ≤
          (Real.log (f₁ + 1) - Real.log (minFreq + 1)) /
            (Real.log (maxFreq + 1) - Real.log (minFreq + 1)) := by
        apply div_le_div_of_nonneg_right ?_ (by linarith)
        · linarith
      have hrange : ((minFontPx width : ℝ) + 10) ≤ (maxFontPx width : ℝ) := by
        have := le_max_left (minFontPx width + 10) (jsRoundR (width * 0.085))
        have hcast : ((minFontPx width + 10 : ℤ) : ℝ) ≤ ((maxFontPx width : ℤ) : ℝ) := by
          exact_mod_cast this
        push_cast at hcast
        linarith
      simp only [weightFactor, if_neg heq]
      apply Int.floor_le_floor
      have hmul : (Real.log (f₂ + 1) - Real.log (minFreq + 1)) /
            (Real.log (maxFreq + 1) - Real.log (minFreq + 1)) *
            ((maxFontPx width : ℝ) - (minFontPx width : ℝ)) ≤
          (Real.log (f₁ + 1) - Real.log (minFreq + 1)) /
            (Real.log (maxFreq + 1) - Real.log (minFreq + 1)) *
            ((maxFontPx width : ℝ) - (minFontPx width : ℝ)) :=
        mul_le_mul_of_nonneg_right hT (by linarith)
      linarith

/-- Witness for `weightFactor_spec` at width 800, frequencies in `[1, 3]`. -/
theorem weightFactor_spec_witness :
    weightFactor 800 1 3 1 ≤ weightFactor 800 1 3 3 ∧
    weightFactor 800 1 1 2 = specFontSize 800 1 1 2 :=
  ⟨(weightFactor_spec 800 1 3).2.2.2 3 1 (by norm_num) (by norm_num) (by norm_num) (by norm_num),
   (weightFactor_spec 800 1 1).1 2⟩

/-! ### Claim C4 -/

